import Mathlib

/-!
Verification of the breadcrumbs extension core logic (`src/index.ts`).

The repository maintains a bounded, deduplicated, most-recent-first trail of
visited locations in a host application.  The pure core consists of:
  * `updateBreadcrumbHistory` — dedup / move-to-front / size-bound (history store);
  * `stripMarkdown` / `truncateText` — content labeler (a chain of JS regex
    `replace` passes followed by `trim`);
  * `getLocationFromHash` — location resolver (two JS regex patterns tried in
    order against the routing hash);
  * `parsePositiveInteger` / `readSettings` — settings parsing with fallback;
  * `handleNavigation` — the navigation controller, whose only effectful
    collaborator (content resolution by uid) is passed in as a function.

JS strings are modelled as `List Char`; each regex `replace` pass is embedded
as a direct scanner with the exact greedy/lazy matching semantics of the
concrete pattern it implements.
-/

/-- `type LocationType = "page" | "block"` from the source. -/
inductive LocationType where
  | page : LocationType
  | block : LocationType
deriving DecidableEq, Repr

/-- `type Location = { type: LocationType; uid: string }` from the source. -/
structure Location where
  type : LocationType
  uid : String
deriving DecidableEq, Repr

/-- `type BreadcrumbItem = { uid: string; type: LocationType; title: string }`. -/
structure BreadcrumbItem where
  uid : String
  type : LocationType
  title : String
deriving DecidableEq, Repr

/-- `updateBreadcrumbHistory` (src/index.ts lines 260–274): drop entries with
the same uid, prepend the new item, and if the result exceeds
`maxBreadcrumbs + 1` entries keep only the first `maxBreadcrumbs + 1`.
The mutable module variable `breadcrumbHistory` is threaded explicitly. -/
def updateBreadcrumbHistory (item : BreadcrumbItem) (maxBreadcrumbs : Nat)
    (history : List BreadcrumbItem) : List BreadcrumbItem :=
  let filtered := history.filter (fun historyItem => historyItem.uid ≠ item.uid)
  let prepended := item :: filtered
  let maxEntries := maxBreadcrumbs + 1
  if prepended.length > maxEntries then prepended.take maxEntries else prepended

/-- Iterated application of `updateBreadcrumbHistory` from a given starting
history, matching a sequence of upsert calls with a fixed cap. -/
def runUpserts (cap : Nat) (items : List BreadcrumbItem) : List BreadcrumbItem :=
  items.foldl (fun h it => updateBreadcrumbHistory it cap h) []

/-- Modelled from the spec's words (§4.3) for the refinement claim: "remove any
existing entry sharing `entry.id` (dedup), then prepend `entry`, then truncate
the sequence to at most `cap + 1` elements, discarding the oldest (tail)
entries first". -/
def specUpsert (item : BreadcrumbItem) (cap : Nat)
    (history : List BreadcrumbItem) : List BreadcrumbItem :=
  (item :: history.filter (fun e => e.uid ≠ item.uid)).take (cap + 1)

/-- A breadcrumb entry with a given id, used for the concrete examples. -/
def mkEntry (s : String) : BreadcrumbItem :=
  ⟨s, .page, s⟩

/-- The identifier character class `[a-zA-Z0-9_-]` used by both location
patterns in `getLocationFromHash`. -/
def isIdChar (c : Char) : Bool :=
  c.isAlpha || c.isDigit || c = '_' || c = '-'

/-- Match a literal character sequence at the head of the input, returning the
remainder on success (the building block for the regex literals). -/
def dropLead : List Char → List Char → Option (List Char)
  | [], s => some s
  | _ :: _, [] => none
  | d :: ds, c :: cs => if c = d then dropLead ds cs else none

/-- The literal `block=` from the pattern `/\/page\/[^?]+\?.*block=([a-zA-Z0-9_-]+)/`. -/
def blockParamLit : List Char :=
  ['b', 'l', 'o', 'c', 'k', '=']

/-- The literal `/page/` shared by both location patterns. -/
def pageLit : List Char :=
  ['/', 'p', 'a', 'g', 'e', '/']

/-- A match of `block=([a-zA-Z0-9_-]+)` exactly at the head of the input:
the literal `block=` followed by a nonempty maximal identifier run (the
greedy `+` capture). -/
def blockHereCapture (s : List Char) : Option (List Char) :=
  match dropLead blockParamLit s with
  | none => none
  | some rest =>
    if (rest.takeWhile isIdChar).isEmpty then none
    else some (rest.takeWhile isIdChar)

/-- The `.*block=([a-zA-Z0-9_-]+)` part of the block pattern: the greedy `.*`
(which cannot cross a newline) selects the LAST position, before any newline,
at which `block=` is followed by at least one identifier character; the
capture is the maximal identifier run there. -/
def lastBlockIn : List Char → Option (List Char)
  | [] => none
  | c :: cs =>
    if c = '\n' then none
    else
      match lastBlockIn cs with
      | some r => some r
      | none => blockHereCapture (c :: cs)

/-- Attempt of the block pattern `/\/page\/[^?]+\?.*block=([a-zA-Z0-9_-]+)/` at
a fixed start position: literal `/page/`, a nonempty run of non-`?` characters,
a `?`, then `lastBlockIn` for the greedy tail. -/
def matchBlockAt (s : List Char) : Option (List Char) :=
  match dropLead pageLit s with
  | none => none
  | some rest =>
    if (rest.takeWhile (fun c => !(c = '?'))).isEmpty then none
    else
      match rest.drop (rest.takeWhile (fun c => !(c = '?'))).length with
      | '?' :: u => lastBlockIn u
      | _ => none

/-- Attempt of the page pattern `/\/page\/([a-zA-Z0-9_-]+)/` at a fixed start
position: literal `/page/` followed by a maximal nonempty identifier run. -/
def matchPageAt (s : List Char) : Option (List Char) :=
  match dropLead pageLit s with
  | none => none
  | some rest =>
    if (rest.takeWhile isIdChar).isEmpty then none
    else some (rest.takeWhile isIdChar)

/-- Leftmost-match search: try the position matcher at each start position,
left to right, as `String.prototype.match` does. -/
def scanFor (f : List Char → Option (List Char)) : List Char → Option (List Char)
  | [] => f []
  | c :: cs =>
    match f (c :: cs) with
    | some r => some r
    | none => scanFor f cs

/-- Capture group 1 of `hash.match(/\/page\/[^?]+\?.*block=([a-zA-Z0-9_-]+)/)`. -/
def blockCapture (s : List Char) : Option (List Char) :=
  scanFor matchBlockAt s

/-- Capture group 1 of `hash.match(/\/page\/([a-zA-Z0-9_-]+)/)`. -/
def pageCapture (s : List Char) : Option (List Char) :=
  scanFor matchPageAt s

/-- `getLocationFromHash` (src/index.ts lines 81–95): try the block pattern,
then the page pattern, else no location.  The routing hash
(`window.location.hash`) is passed as the argument. -/
def getLocationFromHash (hash : String) : Option Location :=
  match blockCapture hash.data with
  | some uid => some ⟨.block, ⟨uid⟩⟩
  | none =>
    match pageCapture hash.data with
    | some uid => some ⟨.page, ⟨uid⟩⟩
    | none => none

/-- One pass of JavaScript `String.prototype.replace` with a global regex:
scan left to right, and at each position either apply the match found there
(emitting the replacement and continuing after the match) or keep the
character and move on.  All patterns used by `stripMarkdown` match at least
one character, so fuel equal to the input length suffices. -/
def replaceGo (f : List Char → Option (List Char × List Char)) :
    Nat → List Char → List Char
  | 0, s => s
  | _ + 1, [] => []
  | fuel + 1, c :: cs =>
    match f (c :: cs) with
    | some (repl, rest) => repl ++ replaceGo f fuel rest
    | none => c :: replaceGo f fuel cs

/-- `text.replace(pattern, replacement)` for a global pattern given by the
head matcher `f` (which returns the emitted replacement and the remainder
after the match). -/
def jsReplace (f : List Char → Option (List Char × List Char))
    (s : List Char) : List Char :=
  replaceGo f s.length s

/-- Head match of a delimited construct `openD (body) closeD` where the body
is a run of characters excluded from `stop` (`[^X]+`, or `[^X]*` when
`needBody` is false), returning `mk body` as the replacement.  Because the
closing delimiter starts with a stopped character, the greedy body run is
exactly the maximal run, with no backtracking. -/
def matchWrapped (openD closeD : List Char) (stop : Char → Bool)
    (needBody : Bool) (mk : List Char → List Char)
    (s : List Char) : Option (List Char × List Char) :=
  match dropLead openD s with
  | none => none
  | some rest =>
    if needBody && (rest.takeWhile (fun c => !(stop c))).isEmpty then none
    else
      match dropLead closeD (rest.drop (rest.takeWhile (fun c => !(stop c))).length) with
      | none => none
      | some rest2 => some (mk (rest.takeWhile (fun c => !(stop c))), rest2)

/-- Lazy `.*?` up to a two-character terminator `ab` (as in `\]\(` or `}}`):
at each position first try the terminator, else consume one non-newline
character. -/
def lazyUntil2 (a b : Char) : List Char → Option (List Char)
  | [] => none
  | [_] => none
  | c :: c2 :: cs =>
    if c = a && c2 = b then some cs
    else if c = '\n' then none
    else lazyUntil2 a b (c2 :: cs)

/-- Lazy `.*?` up to a one-character terminator (as in `\)`). -/
def lazyUntil1 (a : Char) : List Char → Option (List Char)
  | [] => none
  | c :: cs =>
    if c = a then some cs
    else if c = '\n' then none
    else lazyUntil1 a cs

/-- `.replace(/\*\*([^*]+)\*\*/g, "$1")` — bold. -/
def pBold : List Char → Option (List Char × List Char) :=
  matchWrapped ['*', '*'] ['*', '*'] (fun c => c = '*') true (fun b => b)

/-- `.replace(/__([^_]+)__/g, "$1")` — bold (underscore form). -/
def pBoldU : List Char → Option (List Char × List Char) :=
  matchWrapped ['_', '_'] ['_', '_'] (fun c => c = '_') true (fun b => b)

/-- `.replace(/\*([^*]+)\*\/g, "$1")` — italic. -/
def pItalic : List Char → Option (List Char × List Char) :=
  matchWrapped ['*'] ['*'] (fun c => c = '*') true (fun b => b)

/-- `.replace(/_([^_]+)_/g, "$1")` — italic (underscore form). -/
def pItalicU : List Char → Option (List Char × List Char) :=
  matchWrapped ['_'] ['_'] (fun c => c = '_') true (fun b => b)

/-- `.replace(/~~([^~]+)~~/g, "$1")` — strikethrough. -/
def pStrike : List Char → Option (List Char × List Char) :=
  matchWrapped ['~', '~'] ['~', '~'] (fun c => c = '~') true (fun b => b)

/-- `.replace(/\[\[([^\]]+)\]\]/g, "$1")` — page reference brackets. -/
def pWikiLink : List Char → Option (List Char × List Char) :=
  matchWrapped ['[', '['] [']', ']'] (fun c => c = ']') true (fun b => b)

/-- `.replace(/\(\(([^)]+)\)\)/g, "->")` — block reference. -/
def pBlockRef : List Char → Option (List Char × List Char) :=
  matchWrapped ['(', '('] [')', ')'] (fun c => c = ')') true
    (fun _ => ['-', '>'])

/-- ``.replace(/```[^`]*```/g, "[code]")`` — fenced code block. -/
def pCodeFence : List Char → Option (List Char × List Char) :=
  matchWrapped ['\x60', '\x60', '\x60'] ['\x60', '\x60', '\x60']
    (fun c => c = '\x60') false (fun _ => ['[', 'c', 'o', 'd', 'e', ']'])

/-- ``.replace(/`([^`]+)`/g, "$1")`` — inline code. -/
def pInlineCode : List Char → Option (List Char × List Char) :=
  matchWrapped ['\x60'] ['\x60'] (fun c => c = '\x60') true (fun b => b)

/-- `.replace(/!\[.*?\]\(.*?\)/g, "[img]")` — image. -/
def pImage (s : List Char) : Option (List Char × List Char) :=
  match dropLead ['!', '['] s with
  | none => none
  | some rest =>
    match lazyUntil2 ']' '(' rest with
    | none => none
    | some rest2 =>
      match lazyUntil1 ')' rest2 with
      | none => none
      | some rest3 => some (['[', 'i', 'm', 'g', ']'], rest3)

/-- `.replace(/\[([^\]]+)\]\([^)]+\)/g, "$1")` — link, keeping the link text. -/
def pLink (s : List Char) : Option (List Char × List Char) :=
  match dropLead ['['] s with
  | none => none
  | some r1 =>
    if (r1.takeWhile (fun c => !(c = ']'))).isEmpty then none
    else
      match dropLead [']', '('] (r1.drop (r1.takeWhile (fun c => !(c = ']'))).length) with
      | none => none
      | some r2 =>
        if (r2.takeWhile (fun c => !(c = ')'))).isEmpty then none
        else
          match dropLead [')'] (r2.drop (r2.takeWhile (fun c => !(c = ')'))).length) with
          | none => none
          | some r3 => some (r1.takeWhile (fun c => !(c = ']')), r3)

/-- `.replace(/{{.*?}}/g, "")` — templating braces (written with escaped
braces). -/
def pTemplate (s : List Char) : Option (List Char × List Char) :=
  match dropLead ['\x7b', '\x7b'] s with
  | none => none
  | some rest =>
    match lazyUntil2 '\x7d' '\x7d' rest with
    | none => none
    | some rest2 => some ([], rest2)

/-- `.replace(/#\[\[([^\]]+)\]\]/g, "#$1")` — tag reference brackets. -/
def pTag : List Char → Option (List Char × List Char) :=
  matchWrapped ['#', '[', '['] [']', ']'] (fun c => c = ']') true
    (fun b => '#' :: b)

/-- The whitespace class removed by JavaScript `String.prototype.trim` (the
ASCII members plus no-break space; the exotic Unicode members never arise in
the claims). -/
def isJsSpace (c : Char) : Bool :=
  c = ' ' || c = '\t' || c = '\n' || c = '\r' || c = '\x0b' || c = '\x0c' ||
    c = '\xa0'

/-- `text.trim()`. -/
def jsTrim (s : List Char) : List Char :=
  ((s.dropWhile isJsSpace).reverse.dropWhile isJsSpace).reverse

/-- `stripMarkdown` (src/index.ts lines 138–153): the thirteen `replace`
passes in source order, then `trim`. -/
def stripMarkdown (text : List Char) : List Char :=
  jsTrim
    (jsReplace pTag
      (jsReplace pTemplate
        (jsReplace pLink
          (jsReplace pImage
            (jsReplace pInlineCode
              (jsReplace pCodeFence
                (jsReplace pBlockRef
                  (jsReplace pWikiLink
                    (jsReplace pStrike
                      (jsReplace pItalicU
                        (jsReplace pItalic
                          (jsReplace pBoldU
                            (jsReplace pBold text)))))))))))))

/-- `text.slice(0, e)` for an integer `e` (negative `e` counts from the end,
clamped at zero), as used by `truncateText`. -/
def jsSliceTo (s : List Char) (e : Int) : List Char :=
  if e < 0 then s.take ((s.length : Int) + e).toNat else s.take e.toNat

/-- `truncateText` (src/index.ts lines 155–159): strip markup, return it
unchanged if it fits, else the first `maxLength - 1` characters followed by
`"..."`. -/
def truncateText (text : List Char) (maxLength : Int) : List Char :=
  let cleaned := stripMarkdown text
  if (cleaned.length : Int) ≤ maxLength then cleaned
  else jsSliceTo cleaned (maxLength - 1) ++ ['.', '.', '.']

/-- The outcome of the JavaScript `Number(value)` conversion applied to a raw
settings value: a finite number (modelled as a rational), or one of the
non-finite results (`NaN`, `Infinity`, `-Infinity`). -/
inductive JsNum where
  | finite : ℚ → JsNum
  | nan : JsNum
  | posInf : JsNum
  | negInf : JsNum
deriving DecidableEq, Repr

/-- `parsePositiveInteger` (src/index.ts lines 59–68): after the `Number`
conversion, return `Math.floor(parsed)` when the value is finite and `> 0`,
else the fallback.  (`Number.isFinite(parsed) && parsed > 0 ? Math.floor(parsed)
: fallback`.) -/
def parsePositiveInteger (value : JsNum) (fallback : Int) : Int :=
  match value with
  | .finite parsed => if 0 < parsed then ⌊parsed⌋ else fallback
  | _ => fallback

/-- `type ExtensionSettings = { maxBreadcrumbs: number; truncateLength: number }`. -/
structure ExtensionSettings where
  maxBreadcrumbs : Int
  truncateLength : Int
deriving DecidableEq, Repr

/-- `DEFAULT_SETTINGS` from the source. -/
def DEFAULT_SETTINGS : ExtensionSettings :=
  ⟨8, 25⟩

/-- `readSettings` (src/index.ts lines 70–79): parse each raw settings value
with its default as fallback.  The two raw values stand for the results of
`Number(extensionAPI.settings.get(...))`. -/
def readSettings (rawMaxBreadcrumbs rawTruncateLength : JsNum) : ExtensionSettings :=
  ⟨parsePositiveInteger rawMaxBreadcrumbs DEFAULT_SETTINGS.maxBreadcrumbs,
    parsePositiveInteger rawTruncateLength DEFAULT_SETTINGS.truncateLength⟩

/-- The controller's mutable module state: `breadcrumbHistory` and
`currentLocation` (src/index.ts lines 55–56). -/
structure ControllerState where
  breadcrumbHistory : List BreadcrumbItem
  currentLocation : Option Location
deriving DecidableEq, Repr

/-- The part of `handleNavigation` before the `await` (src/index.ts lines
280–283): resolve the hash to a location, bail out if there is none or if its
uid equals the tracked current location's uid (`currentLocation?.uid ===
location.uid`), else hand the location to the resolution step. -/
def handleNavPhase1 (hash : String) (s : ControllerState) : Option Location :=
  match getLocationFromHash hash with
  | none => none
  | some loc =>
    match s.currentLocation with
    | some current => if current.uid = loc.uid then none else some loc
    | none => some loc

/-- The part of `handleNavigation` after a successful `await` (src/index.ts
lines 288–289): commit the resolved item to the history and set the current
location.  The commit is unconditional — the source re-checks nothing after
the `await`. -/
def handleNavCommit (item : BreadcrumbItem) (loc : Location)
    (maxBreadcrumbs : Nat) (s : ControllerState) : ControllerState :=
  ⟨updateBreadcrumbHistory item maxBreadcrumbs s.breadcrumbHistory, some loc⟩

/-- `handleNavigation` (src/index.ts lines 276–292) as a single uninterrupted
run: the `getBreadcrumbItemByUid` collaborator (which queries the host's data
store) is passed in as `resolve`.  The returned flag records whether the
resolver was called, capturing the source's short-circuits (`return` before
the `await`). -/
def handleNavigation (resolve : String → Option BreadcrumbItem) (hash : String)
    (maxBreadcrumbs : Nat) (s : ControllerState) : ControllerState × Bool :=
  match handleNavPhase1 hash s with
  | none => (s, false)
  | some loc =>
    match resolve loc.uid with
    | none => (s, true)
    | some item => (handleNavCommit item loc maxBreadcrumbs s, true)

/-- A total content resolver for the race demonstration: every uid resolves
(as a page whose title is its uid), so both overlapping runs succeed. -/
def demoResolve (uid : String) : Option BreadcrumbItem :=
  some ⟨uid, .page, uid⟩

/-- The interleaving in which the routing signal changes from `/page/aaa` to
`/page/bbb` while the first run is suspended at its `await`:
run 1 performs its pre-await checks against the initial state and suspends;
run 2 (for the newer signal) starts and completes; run 1 then resumes and
commits unconditionally.  Built only from the controller's own pieces
(`handleNavPhase1`, `demoResolve`, `handleNavCommit`, `handleNavigation`). -/
def staleRunFinalState : ControllerState :=
  match handleNavPhase1 "/page/aaa" ⟨[], none⟩ with
  | none => ⟨[], none⟩
  | some loc1 =>
    match (handleNavigation demoResolve "/page/bbb" 8 ⟨[], none⟩).1 with
    | s1 =>
      match demoResolve loc1.uid with
      | none => s1
      | some item1 => handleNavCommit item1 loc1 8 s1

lemma updateBreadcrumbHistory_eq_take (item : BreadcrumbItem) (cap : Nat)
    (history : List BreadcrumbItem) :
    updateBreadcrumbHistory item cap history =
      (item :: history.filter (fun e => e.uid ≠ item.uid)).take (cap + 1) := by
  dsimp only [updateBreadcrumbHistory]
  split
  · rfl
  · next hle =>
    exact (List.take_of_length_le (by omega)).symm

lemma updateBreadcrumbHistory_length_le (item : BreadcrumbItem) (cap : Nat)
    (history : List BreadcrumbItem) :
    (updateBreadcrumbHistory item cap history).length ≤ cap + 1 := by
  rw [updateBreadcrumbHistory_eq_take]
  simp [Nat.min_le_left]

lemma updateBreadcrumbHistory_nodup (item : BreadcrumbItem) (cap : Nat)
    (history : List BreadcrumbItem)
    (h : (history.map (fun e => e.uid)).Nodup) :
    ((updateBreadcrumbHistory item cap history).map (fun e => e.uid)).Nodup := by
  rw [updateBreadcrumbHistory_eq_take]
  have hsub : List.Sublist
      (((item :: history.filter (fun e => e.uid ≠ item.uid)).take (cap + 1)).map
        (fun e => e.uid))
      ((item :: history.filter (fun e => e.uid ≠ item.uid)).map (fun e => e.uid)) :=
    (List.take_sublist _ _).map _
  refine hsub.nodup ?_
  simp only [List.map_cons, List.nodup_cons]
  constructor
  · intro hmem
    rcases List.mem_map.mp hmem with ⟨e, he, huid⟩
    have := List.of_mem_filter he
    simp only [decide_eq_true_eq] at this
    exact this huid
  · exact ((List.filter_sublist _).map _).nodup h

/-- C1: starting from the empty history, any sequence of upserts with a fixed
cap `> 0` leaves at most `cap + 1` entries, no two of which share a uid. -/
theorem runUpserts_bounded_nodup (items : List BreadcrumbItem) (cap : Nat)
    (_hcap : 0 < cap) :
    (runUpserts cap items).length ≤ cap + 1 ∧
      ((runUpserts cap items).map (fun e => e.uid)).Nodup := by
  suffices h : ∀ start : List BreadcrumbItem,
      start.length ≤ cap + 1 → ((start.map (fun e => e.uid)).Nodup) →
      (items.foldl (fun h it => updateBreadcrumbHistory it cap h) start).length ≤ cap + 1 ∧
        ((items.foldl (fun h it => updateBreadcrumbHistory it cap h) start).map
          (fun e => e.uid)).Nodup by
    exact h [] (by simp) (by simp)
  induction items with
  | nil => intro start h1 h2; exact ⟨h1, h2⟩
  | cons it rest ih =>
    intro start h1 h2
    exact ih _ (updateBreadcrumbHistory_length_le it cap start)
      (updateBreadcrumbHistory_nodup it cap start h2)

/-- C1 witness at a concrete input. -/
theorem runUpserts_bounded_nodup_witness :
    0 < 2 ∧
      ((runUpserts 2 [mkEntry "w", mkEntry "x", mkEntry "y", mkEntry "z"]).length ≤ 2 + 1 ∧
        ((runUpserts 2 [mkEntry "w", mkEntry "x", mkEntry "y", mkEntry "z"]).map
          (fun e => e.uid)).Nodup) :=
  ⟨by decide, runUpserts_bounded_nodup [mkEntry "w", mkEntry "x", mkEntry "y", mkEntry "z"] 2
    (by decide)⟩

/-- C2: `updateBreadcrumbHistory` coincides with the spec's
dedup / prepend / truncate-to-`cap + 1` contract, and the two concrete
examples from the spec hold: move-to-front of "b" in `[a, b, c]` with cap 8,
and four distinct upserts with cap 2 retaining the 3 most recent. -/
theorem updateBreadcrumbHistory_spec :
    (∀ (item : BreadcrumbItem) (cap : Nat) (history : List BreadcrumbItem),
        0 < cap → updateBreadcrumbHistory item cap history = specUpsert item cap history) ∧
      updateBreadcrumbHistory (mkEntry "b") 8 [mkEntry "a", mkEntry "b", mkEntry "c"] =
        [mkEntry "b", mkEntry "a", mkEntry "c"] ∧
      runUpserts 2 [mkEntry "w", mkEntry "x", mkEntry "y", mkEntry "z"] =
        [mkEntry "z", mkEntry "y", mkEntry "x"] := by
  refine ⟨fun item cap history _ => ?_, by decide, by decide⟩
  rw [updateBreadcrumbHistory_eq_take]; rfl

/-- C2 witness at a concrete input. -/
theorem updateBreadcrumbHistory_spec_witness :
    0 < 8 ∧
      updateBreadcrumbHistory (mkEntry "b") 8 [mkEntry "a", mkEntry "b", mkEntry "c"] =
        specUpsert (mkEntry "b") 8 [mkEntry "a", mkEntry "b", mkEntry "c"] :=
  ⟨by decide, updateBreadcrumbHistory_spec.1 (mkEntry "b") 8
    [mkEntry "a", mkEntry "b", mkEntry "c"] (by decide)⟩

/-- C4: upserting the same entry twice in a row with the same cap gives the
same history as upserting it once. -/
theorem updateBreadcrumbHistory_idempotent (item : BreadcrumbItem) (cap : Nat)
    (history : List BreadcrumbItem) (_hcap : 0 < cap) :
    updateBreadcrumbHistory item cap (updateBreadcrumbHistory item cap history) =
      updateBreadcrumbHistory item cap history := by
  rw [updateBreadcrumbHistory_eq_take, updateBreadcrumbHistory_eq_take]
  set f := history.filter (fun e => e.uid ≠ item.uid) with hf
  have hinner : ((item :: f).take (cap + 1)).filter (fun e => e.uid ≠ item.uid) =
      f.take cap := by
    rw [List.take_succ_cons, List.filter_cons_of_neg (by simp)]
    apply List.filter_eq_self.mpr
    intro a ha
    have haf : a ∈ f := (List.take_subset cap f) ha
    rw [hf] at haf
    simpa using (List.mem_filter.mp haf).2
  rw [hinner, List.take_succ_cons, List.take_succ_cons, List.take_take, Nat.min_self]

/-- C4 witness at a concrete input. -/
theorem updateBreadcrumbHistory_idempotent_witness :
    0 < 2 ∧
      updateBreadcrumbHistory (mkEntry "a") 2
          (updateBreadcrumbHistory (mkEntry "a") 2 [mkEntry "b"]) =
        updateBreadcrumbHistory (mkEntry "a") 2 [mkEntry "b"] :=
  ⟨by decide, updateBreadcrumbHistory_idempotent (mkEntry "a") 2 [mkEntry "b"] (by decide)⟩

example : getLocationFromHash "#/app/g/page/abc123?x=1&block=xyz789" =
    some ⟨.block, "xyz789"⟩ := by decide

example : getLocationFromHash "#/app/g/page/abc123" = some ⟨.page, "abc123"⟩ := by decide

example : getLocationFromHash "#/app/g/search" = none := by decide

example : getLocationFromHash "/page/p?block=a&block=b" = some ⟨.block, "b"⟩ := by decide

lemma takeWhile_all_of_pred (p : Char → Bool) :
    ∀ l : List Char, (l.takeWhile p).all p = true := by
  intro l
  induction l with
  | nil => rfl
  | cons c cs ih =>
    by_cases h : p c = true
    · simp [List.takeWhile_cons, h, ih]
    · simp [List.takeWhile_cons, Bool.eq_false_iff.mpr h]

lemma takeWhile_eq_self_of_all (p : Char → Bool) (l : List Char)
    (h : l.all p = true) : l.takeWhile p = l := by
  induction l with
  | nil => rfl
  | cons c cs ih =>
    simp only [List.all_cons, Bool.and_eq_true] at h
    simp [List.takeWhile_cons, h.1, ih h.2]

lemma blockHereCapture_idchars {s r : List Char} (h : blockHereCapture s = some r) :
    r ≠ [] ∧ r.all isIdChar = true := by
  rw [blockHereCapture] at h
  split at h
  · exact absurd h (by simp)
  · split at h
    · exact absurd h (by simp)
    · next hne =>
      injection h with h
      subst h
      exact ⟨by simpa [List.isEmpty_iff] using hne, takeWhile_all_of_pred _ _⟩

lemma lastBlockIn_idchars {u r : List Char} (h : lastBlockIn u = some r) :
    r ≠ [] ∧ r.all isIdChar = true := by
  induction u with
  | nil => simp [lastBlockIn] at h
  | cons c cs ih =>
    rw [lastBlockIn] at h
    split at h
    · exact absurd h (by simp)
    · split at h
      · next heq =>
        injection h with h
        subst h
        exact ih heq
      · exact blockHereCapture_idchars h

lemma matchBlockAt_idchars {s r : List Char} (h : matchBlockAt s = some r) :
    r ≠ [] ∧ r.all isIdChar = true := by
  rw [matchBlockAt] at h
  split at h
  · exact absurd h (by simp)
  · split at h
    · exact absurd h (by simp)
    · split at h
      · exact lastBlockIn_idchars h
      · exact absurd h (by simp)

lemma matchPageAt_idchars {s r : List Char} (h : matchPageAt s = some r) :
    r ≠ [] ∧ r.all isIdChar = true := by
  rw [matchPageAt] at h
  split at h
  · exact absurd h (by simp)
  · split at h
    · exact absurd h (by simp)
    · next hne =>
      injection h with h
      subst h
      exact ⟨by simpa [List.isEmpty_iff] using hne, takeWhile_all_of_pred _ _⟩

lemma scanFor_some {f : List Char → Option (List Char)} :
    ∀ {s r : List Char}, scanFor f s = some r → ∃ t, f t = some r := by
  intro s
  induction s with
  | nil => intro r h; exact ⟨[], h⟩
  | cons c cs ih =>
    intro r h
    rw [scanFor] at h
    revert h
    split
    · next heq => intro h; injection h with h; exact ⟨c :: cs, h ▸ heq⟩
    · intro h; exact ih h

/-- C7: `getLocationFromHash` is a pure function of the hash that tries the
block-within-page pattern first, then the page pattern, then yields none; any
captured identifier is a nonempty string of characters from `[a-zA-Z0-9_-]`;
and the three example signals resolve as the spec states. -/
theorem getLocationFromHash_spec :
    (∀ hash : String,
        (∀ u, blockCapture hash.data = some u →
            getLocationFromHash hash = some ⟨.block, ⟨u⟩⟩) ∧
        (blockCapture hash.data = none →
          ∀ u, pageCapture hash.data = some u →
            getLocationFromHash hash = some ⟨.page, ⟨u⟩⟩) ∧
        (blockCapture hash.data = none → pageCapture hash.data = none →
          getLocationFromHash hash = none) ∧
        (∀ loc, getLocationFromHash hash = some loc →
          loc.uid.data ≠ [] ∧ loc.uid.data.all isIdChar = true)) ∧
      getLocationFromHash "#/app/g/page/abc123?x=1&block=xyz789" =
        some ⟨.block, "xyz789"⟩ ∧
      getLocationFromHash "#/app/g/page/abc123" = some ⟨.page, "abc123"⟩ ∧
      getLocationFromHash "#/app/g/search" = none := by
  refine ⟨fun hash => ⟨?_, ?_, ?_, ?_⟩, by decide, by decide, by decide⟩
  · intro u hu
    rw [getLocationFromHash, hu]
  · intro hb u hu
    rw [getLocationFromHash, hb, hu]
  · intro hb hp
    rw [getLocationFromHash, hb, hp]
  · intro loc hloc
    rw [getLocationFromHash] at hloc
    split at hloc
    · next u hu =>
      injection hloc with hloc
      subst hloc
      rcases scanFor_some hu with ⟨t, ht⟩
      exact matchBlockAt_idchars ht
    · split at hloc
      · next u hu =>
        injection hloc with hloc
        subst hloc
        rcases scanFor_some hu with ⟨t, ht⟩
        exact matchPageAt_idchars ht
      · exact absurd hloc (by simp)

/-- C7 witness at a concrete input. -/
theorem getLocationFromHash_spec_witness :
    getLocationFromHash "#/app/g/page/abc123" = some ⟨.page, "abc123"⟩ ∧
      ("abc123" : String).data ≠ [] ∧ ("abc123" : String).data.all isIdChar = true :=
  ⟨by decide, (getLocationFromHash_spec.1 "#/app/g/page/abc123").2.2.2
    ⟨.page, "abc123"⟩ (by decide)⟩

lemma dropLead_mem {d v r : List Char} (h : dropLead d v = some r) :
    ∀ c ∈ d, c ∈ v := by
  induction d generalizing v with
  | nil => intro c hc; exact absurd hc (by simp)
  | cons x ds ih =>
    cases v with
    | nil => simp [dropLead] at h
    | cons y vs =>
      rw [dropLead] at h
      split at h
      · next hxy =>
        intro c hc
        rcases List.mem_cons.mp hc with hcx | hcd
        · exact List.mem_cons.mpr (Or.inl (hcx.trans hxy.symm))
        · exact List.mem_cons.mpr (Or.inr (ih h c hcd))
      · exact absurd h (by simp)

lemma dropLead_self_append (d v : List Char) : dropLead d (d ++ v) = some v := by
  induction d with
  | nil => rfl
  | cons x ds ih => simp [dropLead, ih]

lemma blockHereCapture_none_of_idchars {v : List Char} (h : v.all isIdChar = true) :
    blockHereCapture v = none := by
  rw [blockHereCapture]
  split
  · rfl
  · next rest hdrop =>
    exfalso
    have hmem : '=' ∈ v := dropLead_mem hdrop '=' (by simp [blockParamLit])
    have := List.all_eq_true.mp h '=' hmem
    simp [isIdChar] at this

lemma lastBlockIn_none_of_idchars {v : List Char} (h : v.all isIdChar = true) :
    lastBlockIn v = none := by
  induction v with
  | nil => rfl
  | cons c cs ih =>
    simp only [List.all_cons, Bool.and_eq_true] at h
    rw [lastBlockIn, if_neg ?hnl]
    case hnl =>
      intro hceq
      rw [hceq] at h
      simp [isIdChar] at h
    rw [ih h.2, blockHereCapture_none_of_idchars (by simp [List.all_cons, h.1, h.2])]

lemma lastBlockIn_append_of_right {xs ys r : List Char}
    (hxs : ∀ c ∈ xs, c ≠ '\n') (h : lastBlockIn ys = some r) :
    lastBlockIn (xs ++ ys) = some r := by
  induction xs with
  | nil => simpa using h
  | cons x xs' ih =>
    have hx : x ≠ '\n' := hxs x (by simp)
    rw [List.cons_append, lastBlockIn, if_neg hx,
      ih (fun c hc => hxs c (List.mem_cons.mpr (Or.inr hc)))]

lemma blockHereCapture_cons_ne {x : Char} (v : List Char) (hx : x ≠ 'b') :
    blockHereCapture (x :: v) = none := by
  simp [blockHereCapture, blockParamLit, dropLead, hx]

lemma lastBlockIn_none_of_no_b {xs b : List Char} (hxs : ∀ c ∈ xs, c ≠ 'b')
    (hid : b.all isIdChar = true) : lastBlockIn (xs ++ b) = none := by
  induction xs with
  | nil => exact lastBlockIn_none_of_idchars hid
  | cons x xs' ih =>
    have hxb : x ≠ 'b' := hxs x (by simp)
    by_cases hxn : x = '\n'
    · rw [List.cons_append, lastBlockIn, if_pos hxn]
    · rw [List.cons_append, lastBlockIn, if_neg hxn,
        ih (fun c hc => hxs c (List.mem_cons.mpr (Or.inr hc))),
        blockHereCapture_cons_ne _ hxb]

lemma lastBlockIn_at_blockParam {b : List Char} (hne : b ≠ [])
    (hid : b.all isIdChar = true) :
    lastBlockIn (blockParamLit ++ b) = some b := by
  have hhere : blockHereCapture (blockParamLit ++ b) = some b := by
    rw [blockHereCapture, dropLead_self_append]
    dsimp only
    rw [takeWhile_eq_self_of_all _ _ hid,
      if_neg (by simpa [List.isEmpty_iff] using hne)]
  have htail : lastBlockIn ((['l', 'o', 'c', 'k', '='] : List Char) ++ b) = none :=
    lastBlockIn_none_of_no_b (by decide) hid
  show lastBlockIn ('b' :: ((['l', 'o', 'c', 'k', '='] : List Char) ++ b)) = some b
  rw [lastBlockIn, if_neg (by decide), htail]
  exact hhere

lemma scanFor_eq_of_head {f : List Char → Option (List Char)} {s r : List Char}
    (h : f s = some r) : scanFor f s = some r := by
  cases s with
  | nil => rw [scanFor]; exact h
  | cons c cs => rw [scanFor, h]

/-- C10: with two `block=` query parameters carrying identifier values, the
greedy `.*` in the block pattern captures the LAST one: the hash
`/page/p?block=a&block=b` resolves to a block location with the second id. -/
theorem getLocationFromHash_lastBlockParam (a b : List Char)
    (_hane : a ≠ []) (haid : a.all isIdChar = true)
    (hbne : b ≠ []) (hbid : b.all isIdChar = true) :
    getLocationFromHash
        ⟨pageLit ++ 'p' :: '?' ::
          (blockParamLit ++ a ++ '&' :: (blockParamLit ++ b))⟩ =
      some ⟨.block, ⟨b⟩⟩ := by
  have hlast : lastBlockIn (blockParamLit ++ a ++ '&' :: (blockParamLit ++ b)) =
      some b := by
    have hxs : ∀ c ∈ blockParamLit ++ a ++ ['&'], c ≠ '\n' := by
      intro c hc hcn
      subst hcn
      simp only [List.mem_append, List.mem_singleton] at hc
      rcases hc with (hc | hc) | hc
      · exact absurd hc (by decide)
      · have := List.all_eq_true.mp haid _ hc
        simp [isIdChar] at this
      · exact absurd hc (by decide)
    have := lastBlockIn_append_of_right hxs
      (lastBlockIn_at_blockParam hbne hbid)
    simpa [List.append_assoc] using this
  have hmatch : matchBlockAt
      (pageLit ++ 'p' :: '?' :: (blockParamLit ++ a ++ '&' :: (blockParamLit ++ b))) =
      some b := by
    rw [matchBlockAt, dropLead_self_append]
    dsimp only
    have htw : List.takeWhile (fun c => !(c = '?')) ('p' :: '?' ::
        (blockParamLit ++ a ++ '&' :: (blockParamLit ++ b))) = ['p'] := by
      simp [List.takeWhile_cons]
    rw [htw]
    simp only [List.isEmpty_cons, Bool.false_eq_true, if_false, List.length_cons,
      List.length_nil]
    exact hlast
  have hblock : blockCapture
      (pageLit ++ 'p' :: '?' :: (blockParamLit ++ a ++ '&' :: (blockParamLit ++ b))) =
      some b := scanFor_eq_of_head hmatch
  rw [getLocationFromHash]
  rw [show (String.mk (pageLit ++ 'p' :: '?' ::
      (blockParamLit ++ a ++ '&' :: (blockParamLit ++ b)))).data =
      pageLit ++ 'p' :: '?' :: (blockParamLit ++ a ++ '&' :: (blockParamLit ++ b)) from rfl]
  rw [hblock]

/-- C10 witness at a concrete input. -/
theorem getLocationFromHash_lastBlockParam_witness :
    (['a'] : List Char) ≠ [] ∧ (['a'] : List Char).all isIdChar = true ∧
      (['b'] : List Char) ≠ [] ∧ (['b'] : List Char).all isIdChar = true ∧
      getLocationFromHash
          ⟨pageLit ++ 'p' :: '?' ::
            (blockParamLit ++ ['a'] ++ '&' :: (blockParamLit ++ ['b']))⟩ =
        some ⟨.block, ⟨['b']⟩⟩ :=
  ⟨by decide, by decide, by decide, by decide,
    getLocationFromHash_lastBlockParam ['a'] ['b'] (by decide) (by decide)
      (by decide) (by decide)⟩

example : stripMarkdown "**bold**".data = "bold".data := by decide

example : stripMarkdown "[[Some Page]]".data = "Some Page".data := by decide

example : stripMarkdown "((ref123))".data = "->".data := by decide

example : stripMarkdown "  plain  ".data = "plain".data := by decide

example : truncateText "abcd".data 2 = "a...".data := by decide

/-- C3 counterexample: the claim "truncate(text, n) returns a string of length
at most n" fails — the ellipsis marker is the three characters `...`, so the
overflow result has length `n + 2`.  Here `n = 2 ≥ 1` and the result `a...`
has length 4. -/
theorem truncateText_length_cex :
    (1 : Int) ≤ 2 ∧ truncateText "abcd".data 2 = "a...".data ∧
      ¬ ((truncateText "abcd".data 2).length ≤ 2) := by decide

/-- C3 (amended): for `n ≥ 1`, `truncateText` returns at most `n + 2`
characters; it returns `stripMarkdown text` unchanged whenever that fits in
`n`; and in the overflow case it returns the first `n - 1` characters of
`stripMarkdown text` followed by the ellipsis marker `...`. -/
theorem truncateText_amended (text : List Char) (n : Int) (h : 1 ≤ n) :
    (truncateText text n).length ≤ (n + 2).toNat ∧
      (((stripMarkdown text).length : Int) ≤ n →
        truncateText text n = stripMarkdown text) ∧
      (n < ((stripMarkdown text).length : Int) →
        truncateText text n =
          (stripMarkdown text).take (n - 1).toNat ++ ['.', '.', '.']) := by
  dsimp only [truncateText]
  by_cases hle : ((stripMarkdown text).length : Int) ≤ n
  · rw [if_pos hle]
    refine ⟨by omega, fun _ => rfl, fun hlt => absurd hle (by omega)⟩
  · rw [if_neg hle]
    have hslice : jsSliceTo (stripMarkdown text) (n - 1) =
        (stripMarkdown text).take (n - 1).toNat := by
      rw [jsSliceTo, if_neg (by omega)]
    refine ⟨?_, fun hfit => absurd hfit hle, fun _ => by rw [hslice]⟩
    rw [hslice]
    simp only [List.length_append, List.length_take, List.length_cons,
      List.length_nil]
    omega

/-- C3 witness at a concrete input. -/
theorem truncateText_amended_witness :
    (1 : Int) ≤ 25 ∧
      (truncateText "hello".data 25).length ≤ ((25 : Int) + 2).toNat ∧
      (((stripMarkdown "hello".data).length : Int) ≤ 25 →
        truncateText "hello".data 25 = stripMarkdown "hello".data) :=
  ⟨by decide, (truncateText_amended "hello".data 25 (by decide)).1,
    (truncateText_amended "hello".data 25 (by decide)).2.1⟩

/-- C5 counterexample: `stripMarkdown` is not idempotent on every string — on
"``a``" the single-backtick pass collapses the doubled backticks to "`a`",
which a second application strips further to "a". -/
theorem stripMarkdown_not_idempotent :
    stripMarkdown (stripMarkdown "``a``".data) ≠ stripMarkdown "``a``".data ∧
      stripMarkdown "``a``".data = "`a`".data ∧
      stripMarkdown "`a`".data = "a".data := by decide

/-- C5 (amended): `stripMarkdown` is idempotent on already-clean text: if
`stripMarkdown x = x` then applying it to its own output changes nothing. -/
theorem stripMarkdown_idem_on_clean (x : List Char) (h : stripMarkdown x = x) :
    stripMarkdown (stripMarkdown x) = stripMarkdown x := by
  rw [h]
  exact h

/-- C5 witness at a concrete input. -/
theorem stripMarkdown_idem_on_clean_witness :
    stripMarkdown "clean text".data = "clean text".data ∧
      stripMarkdown (stripMarkdown "clean text".data) =
        stripMarkdown "clean text".data :=
  ⟨by decide, stripMarkdown_idem_on_clean "clean text".data (by decide)⟩

lemma parsePositiveInteger_finite_half (fallback : Int) :
    parsePositiveInteger (.finite (1 / 2)) fallback = 0 := by
  show (if (0 : ℚ) < 1 / 2 then ⌊(1 / 2 : ℚ)⌋ else fallback) = 0
  rw [if_pos (by norm_num)]
  rw [Int.floor_eq_zero_iff]
  constructor <;> norm_num

/-- C9: the claim "parsing yields a positive integer" fails.  A raw value of
0.5 (e.g. the settings string "0.5") is finite and positive, so the fallback
is not taken, and `Math.floor(0.5) = 0` is returned — not a positive integer.
The fallback cases themselves behave as claimed. -/
theorem parsePositiveInteger_zero_on_half :
    parsePositiveInteger (.finite (1 / 2)) 8 = 0 ∧
      ¬ (0 < (0 : Int)) ∧
      readSettings (.finite (1 / 2)) (.finite (1 / 2)) = ⟨0, 0⟩ ∧
      parsePositiveInteger .nan 8 = 8 ∧
      parsePositiveInteger .posInf 8 = 8 ∧
      parsePositiveInteger .negInf 25 = 25 ∧
      parsePositiveInteger (.finite 0) 8 = 8 ∧
      parsePositiveInteger (.finite (-3)) 25 = 25 ∧
      parsePositiveInteger (.finite (7 / 2)) 8 = 3 := by
  refine ⟨parsePositiveInteger_finite_half 8, by decide, ?_, rfl, rfl, rfl, ?_, ?_, ?_⟩
  · show readSettings _ _ = _
    rw [readSettings, DEFAULT_SETTINGS, parsePositiveInteger_finite_half,
      parsePositiveInteger_finite_half]
  · show (if (0 : ℚ) < 0 then ⌊(0 : ℚ)⌋ else 8) = 8
    norm_num
  · show (if (0 : ℚ) < -3 then ⌊(-3 : ℚ)⌋ else 25) = 25
    norm_num
  · show (if (0 : ℚ) < 7 / 2 then ⌊(7 / 2 : ℚ)⌋ else 8) = 3
    rw [if_pos (by norm_num)]
    rw [Int.floor_eq_iff]
    constructor <;> norm_num

/-- C6: the three discard cases of the controller leave the state unchanged —
no location in the hash (resolver never called), same uid as the tracked
current location (short-circuited before the resolver call), and resolution
miss (resolver called, state untouched). -/
theorem handleNavigation_noop (resolve : String → Option BreadcrumbItem)
    (hash : String) (maxBreadcrumbs : Nat) (s : ControllerState) :
    (getLocationFromHash hash = none →
      handleNavigation resolve hash maxBreadcrumbs s = (s, false)) ∧
    (∀ loc, getLocationFromHash hash = some loc →
      (∃ current, s.currentLocation = some current ∧ current.uid = loc.uid) →
      handleNavigation resolve hash maxBreadcrumbs s = (s, false)) ∧
    (∀ loc, getLocationFromHash hash = some loc →
      (∀ current, s.currentLocation = some current → current.uid ≠ loc.uid) →
      resolve loc.uid = none →
      handleNavigation resolve hash maxBreadcrumbs s = (s, true)) := by
  refine ⟨?_, ?_, ?_⟩
  · intro hnone
    simp [handleNavigation, handleNavPhase1, hnone]
  · rintro loc hloc ⟨current, hcur, huid⟩
    simp [handleNavigation, handleNavPhase1, hloc, hcur, huid]
  · intro loc hloc hdiff hmiss
    cases hcur : s.currentLocation with
    | none => simp [handleNavigation, handleNavPhase1, hloc, hcur, hmiss]
    | some current =>
      simp [handleNavigation, handleNavPhase1, hloc, hcur, hmiss,
        hdiff current hcur]

/-- C6 witness at a concrete input. -/
theorem handleNavigation_noop_witness :
    getLocationFromHash "#/app/g/search" = none ∧
      handleNavigation (fun _ => none) "#/app/g/search" 8 ⟨[], none⟩ =
        (⟨[], none⟩, false) :=
  ⟨by decide, (handleNavigation_noop (fun _ => none) "#/app/g/search" 8
    ⟨[], none⟩).1 (by decide)⟩

/-- C8: the code has no staleness guard, so the slower resolution for the
older signal `/page/aaa` overwrites the state committed for the newer signal
`/page/bbb`: after the interleaving, `currentLocation` is the `aaa` page and
`aaa` heads the history, although the latest signal resolves to `bbb`. -/
theorem staleResolutionOverwrites :
    staleRunFinalState.currentLocation = some ⟨.page, "aaa"⟩ ∧
      staleRunFinalState.breadcrumbHistory =
        [⟨"aaa", .page, "aaa"⟩, ⟨"bbb", .page, "bbb"⟩] ∧
      getLocationFromHash "/page/bbb" = some ⟨.page, "bbb"⟩ ∧
      (⟨.page, "aaa"⟩ : Location) ≠ ⟨.page, "bbb"⟩ := by decide
